import Mathlib

set_option maxHeartbeats 1000000

/-!  Shallow embedding of the PerformanceUtils load-testing engine
     (src/src/utils/logger.ts, class PerformanceUtils).

     Wall-clock instants and durations are rationals (milliseconds); actor
     counts are integers (the configuration surface supplies whole actor
     counts).  Each virtual actor is driven by a finite trace of iteration
     records: how long one operation invocation took and whether it
     completed or threw.  In the Node.js event loop an array push and a
     counter increment are single synchronous steps, so a concurrent run
     mutates the shared metrics by an arbitrary interleaving of atomic
     record events; every aggregate the controllers compute (lengths, sums,
     min/max) is invariant under that interleaving order, which lets the
     model fold the actors of one phase in index order.  Model functions
     return Option: `none` means the supplied trace was too short to carry
     an actor to its deadline (the execution is outside the model), never
     an error of the engine itself — the source engine has no error path of
     its own.  JavaScript non-finite numbers (NaN from 0/0, the comparisons
     against which are always false) are modelled by `Option ℚ` with `none`
     as the non-finite case. -/

/-- One operation invocation as one actor observes it: the wall time the
call took and whether it completed (`ok = true`) or threw. -/
structure IterRec where
  elapsed : ℚ
  ok : Bool
deriving DecidableEq

/-- Pacing actually waited between iterations: the source only sleeps when
`thinkTime > 0` (logger.ts 371-373). -/
def pace (thinkTime : ℚ) : ℚ := if 0 < thinkTime then thinkTime else 0

/-- Outcome of one actor's whole loop: exit instant, latencies it pushed,
failures it counted, and the number of operation invocations it made. -/
structure ActorRun where
  exitTime : ℚ
  lats : List ℚ
  errs : ℕ
  calls : ℕ
deriving DecidableEq

/-- simulateUser (logger.ts 353-375): while `Date.now() < endTime`, invoke
the operation; on completion push the measured latency onto the shared
array, on a thrown error increment the shared failure counter (the catch is
local to the loop body); then sleep the think time. -/
def simulateUser (thinkTime dl : ℚ) : ℚ → List IterRec → Option ActorRun
  | now, trace =>
    if dl ≤ now then some ⟨now, [], 0, 0⟩
    else
      match trace with
      | [] => none
      | it :: rest =>
        (simulateUser thinkTime dl (now + it.elapsed + pace thinkTime) rest).map fun a =>
          ⟨a.exitTime, (if it.ok then [it.elapsed] else []) ++ a.lats,
            (if it.ok then 0 else 1) + a.errs, a.calls + 1⟩

/-- Instant of the j-th loop check (iteration boundary) of `simulateUser`
started at `now` on `trace`. -/
def checkTime (thinkTime : ℚ) : ℚ → List IterRec → ℕ → ℚ
  | now, _, 0 => now
  | now, [], _ + 1 => now
  | now, it :: rest, j + 1 => checkTime thinkTime (now + it.elapsed + pace thinkTime) rest j

/-- Outcome of one spike-phase actor's loop. -/
structure PhaseActorRun where
  exitTime : ℚ
  responseTimes : List ℚ
  errors : ℕ
  calls : ℕ
deriving DecidableEq

/-- simulateUserPhase (logger.ts 410-428): like `simulateUser` with no think
time.  `responseTimes` is the caller's array (shared, mutated in place);
`errors` is a JavaScript number parameter, i.e. a by-value copy — its
increments are never seen by the caller. -/
def simulateUserPhase (dl : ℚ) : ℚ → List IterRec → List ℚ → ℕ → Option PhaseActorRun
  | now, trace, responseTimes, errors =>
    if dl ≤ now then some ⟨now, responseTimes, errors, 0⟩
    else
      match trace with
      | [] => none
      | it :: rest =>
        (simulateUserPhase dl (now + it.elapsed) rest
            (if it.ok then responseTimes ++ [it.elapsed] else responseTimes)
            (if it.ok then errors else errors + 1)).map fun a =>
          ⟨a.exitTime, a.responseTimes, a.errors, a.calls + 1⟩

/-- The two shared metrics fields concurrent actors mutate
(logger.ts 131-137). -/
structure Metrics where
  responseTimes : List ℚ
  errors : ℕ
deriving DecidableEq

/-- recordSuccess of the accumulator contract: the source's
`this.metrics.responseTimes.push(responseTime)` (logger.ts 364). -/
def recordSuccess (m : Metrics) (latencyMs : ℚ) : Metrics :=
  { m with responseTimes := m.responseTimes ++ [latencyMs] }

/-- recordFailure: the source's `this.metrics.errors++` (logger.ts 366). -/
def recordFailure (m : Metrics) : Metrics :=
  { m with errors := m.errors + 1 }

/-- One atomic write by some actor.  In the single-threaded event loop a
push or an increment runs without interruption, so a concurrent execution
is an arbitrary interleaving of these events. -/
inductive RecordEvent where
  | success (latencyMs : ℚ)
  | failure
deriving DecidableEq

def applyEvent (m : Metrics) : RecordEvent → Metrics
  | .success l => recordSuccess m l
  | .failure => recordFailure m

def applyEvents (m : Metrics) (evts : List RecordEvent) : Metrics :=
  evts.foldl applyEvent m

/-- getCurrentMetrics (logger.ts 518-520) returns a field-wise copy of the
current shared state. -/
def getCurrentMetrics (m : Metrics) : Metrics := m

def isSuccessEvent : RecordEvent → Bool
  | .success _ => true
  | .failure => false

def countSuccess (evts : List RecordEvent) : ℕ := (evts.filter isSuccessEvent).length

def countFailure (evts : List RecordEvent) : ℕ :=
  (evts.filter fun e => !isSuccessEvent e).length

def eventLat : RecordEvent → Option ℚ
  | .success l => some l
  | .failure => none

/-- Math.min over a spread; the sources only use it under a `length > 0`
guard, with 0 in the empty branch. -/
def listMin : List ℚ → ℚ
  | [] => 0
  | x :: xs => xs.foldl min x

/-- Math.max over a spread, under the same nonempty guard. -/
def listMax : List ℚ → ℚ
  | [] => 0
  | x :: xs => xs.foldl max x

/-- JavaScript division where a zero divisor yields a non-finite number
(NaN or Infinity), modelled as `none`. -/
def jsDiv (a b : ℚ) : Option ℚ := if b = 0 then none else some (a / b)

/-- NaN-propagating addition, for JavaScript sums over possibly-NaN
values. -/
def jsAdd : Option ℚ → Option ℚ → Option ℚ
  | some a, some b => some (a + b)
  | _, _ => none

/-- Launch actors 0..n-1 (the synchronous promise-push loops of the
controllers) and await Promise.all: the join instant is the latest actor
exit, at least `joinInit` (the instant the controller itself reaches the
await), and the shared metrics hold every actor's records.  The
interleaving order of the pushes is irrelevant to every aggregate read from
them, so the fold visits actors in index order. -/
def joinActors (thinkTime dl joinInit : ℚ) (start : ℕ → ℚ) (traces : ℕ → List IterRec) :
    ℕ → Option (ℚ × List ℚ × ℕ)
  | 0 => some (joinInit, [], 0)
  | n + 1 =>
    match joinActors thinkTime dl joinInit start traces n with
    | none => none
    | some (j, lats, errs) =>
      match simulateUser thinkTime dl (start n) (traces n) with
      | none => none
      | some a => some (max j a.exitTime, lats ++ a.lats, errs + a.errs)

/-- LoadTestResult (logger.ts 532-544) without the constant `testType`
string and the wall-clock `timestamp`. -/
structure LoadTestResult' where
  totalRequests : ℕ
  successfulRequests : ℕ
  failedRequests : ℕ
  avgResponseTime : ℚ
  minResponseTime : ℚ
  maxResponseTime : ℚ
  errorRate : ℚ
  throughput : Option ℚ
  duration : ℚ
deriving DecidableEq

/-- generateLoadTestResult (logger.ts 446-469), reading the accumulated
metrics fields. -/
def generateLoadTestResult (startTime endTime : ℚ) (responseTimes : List ℚ) (errors : ℕ) :
    LoadTestResult' :=
  let totalRequests := responseTimes.length + errors
  { totalRequests := totalRequests
    successfulRequests := responseTimes.length
    failedRequests := errors
    avgResponseTime :=
      if 0 < responseTimes.length then responseTimes.sum / (responseTimes.length : ℚ) else 0
    minResponseTime := if 0 < responseTimes.length then listMin responseTimes else 0
    maxResponseTime := if 0 < responseTimes.length then listMax responseTimes else 0
    errorRate := if 0 < totalRequests then ((errors : ℚ) / (totalRequests : ℚ)) * 100 else 0
    throughput := jsDiv (totalRequests : ℚ) ((endTime - startTime) / 1000)
    duration := (endTime - startTime) / 1000 }

/-- loadTest (logger.ts 154-195).  The spawn loop launches one actor per
pass while `activeUsers < users`, at instants `now0 + i * rampUpInterval`
(with no ramp every launch is immediate), and keeps looping — without any
suspension point once all actors are launched — until `endTime`; the model
therefore spawns every index whose launch instant precedes `endTime` and
places the controller at the await no earlier than `endTime`.
`rampUpInterval` is `rampUpTime * 1000 / users` when `rampUpTime > 0`
(guarded against the division by zero, which cannot reach a spawned actor:
with `users = 0` nothing spawns). -/
def spawnCount (users : ℤ) (rampUpInterval now0 endTime : ℚ) : ℕ :=
  (List.range users.toNat).countP fun (i : ℕ) =>
    decide (now0 + (i : ℚ) * rampUpInterval < endTime)

def loadTest (duration : ℚ) (users : ℤ) (rampUpTime thinkTime now0 : ℚ)
    (traces : ℕ → List IterRec) : Option LoadTestResult' :=
  let startTime := now0
  let endTime := now0 + duration * 1000
  let rampUpInterval : ℚ :=
    if 0 < rampUpTime ∧ users ≠ 0 then rampUpTime * 1000 / (users : ℚ) else 0
  let spawned := spawnCount users rampUpInterval now0 endTime
  let controllerDone := max now0 endTime
  match joinActors thinkTime endTime controllerDone
      (fun i => now0 + (i : ℚ) * rampUpInterval) traces spawned with
  | none => none
  | some (j, lats, errs) => some (generateLoadTestResult startTime j lats errs)

/-- One stress-test step sample (logger.ts 216): concurrency, average
latency, error rate.  The error rate is `NaN` (`none`) when the step made
no invocation at all. -/
structure StressSample where
  users : ℤ
  avgResponseTime : ℚ
  errorRate : Option ℚ
deriving DecidableEq

/-- A JavaScript `>=` comparison against a possibly-NaN error rate:
`NaN >= t` is false. -/
def rateGe (r : Option ℚ) (t : ℚ) : Bool :=
  match r with
  | none => false
  | some q => decide (t ≤ q)

/-- One iteration of the stress loop body (logger.ts 219-241): reset the
step metrics, run `users` concurrent actors until `stepDuration` elapses,
then reduce the step metrics to a sample. -/
def stressStep (stepDuration : ℚ) (u : ℤ) (now : ℚ) (tr : ℕ → List IterRec) :
    Option (ℚ × StressSample) :=
  let stepEndTime := now + stepDuration * 1000
  match joinActors 0 stepEndTime now (fun _ => now) tr u.toNat with
  | none => none
  | some (j, lats, errs) =>
    some (j,
      { users := u
        avgResponseTime := if 0 < lats.length then lats.sum / (lats.length : ℚ) else 0
        errorRate :=
          if lats.length + errs = 0 then none
          else some (((errs : ℚ) / ((lats.length : ℚ) + (errs : ℚ))) * 100) })

/-- The stress for-loop (logger.ts 218-248): concurrency starts at
`stepSize` and grows by `stepSize`; the guard `users ≤ maxUsers ∧
now < endTime` is checked before each step; after a step the loop breaks as
soon as the step's error rate reaches the caller's threshold.  `fuel`
bounds the recursion depth of the model; exhausting it yields `none`. -/
def stressLoop (maxUsers stepSize : ℤ) (stepDuration endTime errorThreshold : ℚ)
    (traces : ℕ → ℕ → List IterRec) :
    ℕ → ℤ → ℕ → ℚ → List StressSample → Option (ℚ × List StressSample)
  | 0, _, _, _, _ => none
  | fuel + 1, users, idx, now, acc =>
    if users ≤ maxUsers ∧ now < endTime then
      match stressStep stepDuration users now (traces idx) with
      | none => none
      | some (j, s) =>
        if rateGe s.errorRate errorThreshold then some (j, acc ++ [s])
        else
          stressLoop maxUsers stepSize stepDuration endTime errorThreshold traces
            fuel (users + stepSize) (idx + 1) j (acc ++ [s])
    else some (now, acc)

/-- StressTestResult (logger.ts 546-551) without the constant `testType`
and the wall-clock `timestamp`. -/
structure StressTestResult' where
  breakingPoint : ℤ
  results : List StressSample
deriving DecidableEq

/-- JavaScript `x?.users || y`: `undefined` (`none`) and the falsy
concurrency 0 both fall through to `y`. -/
def jsOrUsers : Option StressSample → ℤ → ℤ
  | some r, y => if r.users = 0 then y else r.users
  | none, y => y

/-- generateStressTestResult (logger.ts 474-483):
`results.find(r => r.errorRate >= 5)?.users || results[len-1]?.users || 0`.
The classification threshold is the literal 5, not the caller's
errorThreshold. -/
def generateStressTestResult (results : List StressSample) : StressTestResult' :=
  { breakingPoint :=
      jsOrUsers (results.find? fun r => rateGe r.errorRate 5) (jsOrUsers results.getLast? 0)
    results := results }

/-- stressTest (logger.ts 200-252). -/
def stressTest (maxUsers stepSize : ℤ) (stepDuration maxDuration errorThreshold now0 : ℚ)
    (traces : ℕ → ℕ → List IterRec) (fuel : ℕ) : Option (ℚ × StressTestResult') :=
  let endTime := now0 + maxDuration * 1000
  match stressLoop maxUsers stepSize stepDuration endTime errorThreshold traces
      fuel stepSize 0 now0 [] with
  | none => none
  | some (t, samples) => some (t, generateStressTestResult samples)

/-- One spike-phase sample (logger.ts 272). -/
structure PhaseSample where
  users : ℤ
  avgResponseTime : ℚ
  errorRate : Option ℚ
deriving DecidableEq

/-- All actors of one phase, launched together at `startT`, joined by
Promise.all; the phase latency array is threaded through (it is the one
shared array), while each call receives the caller's `phaseErrors` by value
and its returned `errors` field is discarded — exactly the JavaScript
number-argument semantics of logger.ts 394. -/
def joinActorsPhase (dl startT : ℚ) (traces : ℕ → List IterRec) (phaseErrors : ℕ) :
    ℕ → Option (ℚ × List ℚ)
  | 0 => some (startT, [])
  | n + 1 =>
    match joinActorsPhase dl startT traces phaseErrors n with
    | none => none
    | some (j, rts) =>
      match simulateUserPhase dl startT (traces n) rts phaseErrors with
      | none => none
      | some a => some (max j a.exitTime, a.responseTimes)

/-- Everything one runPhase invocation determines: its interval bounds, the
join instant, the latency array it accumulated, and the sample it returns
to spikeTest. -/
structure SpikePhaseLog where
  startTime : ℚ
  deadline : ℚ
  joinTime : ℚ
  responseTimes : List ℚ
  sample : PhaseSample
deriving DecidableEq

/-- runPhase (logger.ts 380-405): fresh phase metrics, `users` concurrent
actors until `duration` elapses, then the reduction.  `phaseErrors` is the
local `let phaseErrors = 0` that is never reassigned: the actors increment
their own by-value copies, so the error rate is computed from 0 failures. -/
def runPhase (users : ℤ) (duration now : ℚ) (traces : ℕ → List IterRec) :
    Option SpikePhaseLog :=
  let phaseStartTime := now
  let phaseEndTime := now + duration * 1000
  let phaseErrors : ℕ := 0
  match joinActorsPhase phaseEndTime phaseStartTime traces phaseErrors users.toNat with
  | none => none
  | some (j, rts) =>
    some { startTime := phaseStartTime
           deadline := phaseEndTime
           joinTime := j
           responseTimes := rts
           sample :=
             { users := users
               avgResponseTime := if 0 < rts.length then rts.sum / (rts.length : ℚ) else 0
               errorRate :=
                 if rts.length + phaseErrors = 0 then none
                 else some (((phaseErrors : ℚ) / ((rts.length : ℚ) + (phaseErrors : ℚ))) * 100) } }

/-- One labeled sample of the spike result (logger.ts 553-557). -/
structure LabeledSample where
  phase : String
  users : ℤ
  avgResponseTime : ℚ
  errorRate : Option ℚ
deriving DecidableEq

/-- SpikeTestResult without the constant `testType` and the timestamp. -/
structure SpikeTestResult' where
  results : List LabeledSample
deriving DecidableEq

/-- A spike run: the three phase logs and the assembled result. -/
structure SpikeRun where
  base : SpikePhaseLog
  spike : SpikePhaseLog
  recovery : SpikePhaseLog
  result : SpikeTestResult'
deriving DecidableEq

/-- spikeTest (logger.ts 257-291): three sequential awaited phases — base,
spike, recovery — each starting when the previous one has joined. -/
def spikeTest (baseUsers spikeUsers : ℤ) (baseDuration spikeDuration recoveryDuration now0 : ℚ)
    (traces : ℕ → ℕ → List IterRec) : Option SpikeRun :=
  match runPhase baseUsers baseDuration now0 (traces 0) with
  | none => none
  | some p1 =>
    match runPhase spikeUsers spikeDuration p1.joinTime (traces 1) with
    | none => none
    | some p2 =>
      match runPhase baseUsers recoveryDuration p2.joinTime (traces 2) with
      | none => none
      | some p3 =>
        some { base := p1, spike := p2, recovery := p3
               result :=
                 { results :=
                     [⟨"Base Load", p1.sample.users, p1.sample.avgResponseTime,
                        p1.sample.errorRate⟩,
                      ⟨"Spike Load", p2.sample.users, p2.sample.avgResponseTime,
                        p2.sample.errorRate⟩,
                      ⟨"Recovery", p3.sample.users, p3.sample.avgResponseTime,
                        p3.sample.errorRate⟩] } }

/-- Latencies and failures one endurance actor has recorded by instant `T`:
the prefix of its iterations whose completion instants are at most `T`
(each loop body records right after the invocation returns). -/
def recordsUpTo (thinkTime dl T : ℚ) : ℚ → List IterRec → List ℚ × ℕ
  | now, trace =>
    if dl ≤ now then ([], 0)
    else
      match trace with
      | [] => ([], 0)
      | it :: rest =>
        if T < now + it.elapsed then ([], 0)
        else
          let r := recordsUpTo thinkTime dl T (now + it.elapsed + pace thinkTime) rest
          ((if it.ok then [it.elapsed] else []) ++ r.1, (if it.ok then 0 else 1) + r.2)

/-- One monitoring snapshot (logger.ts 312-317). -/
structure EnduranceSnapshot where
  timestamp : ℚ
  avgResponseTime : ℚ
  errorRate : Option ℚ
  activeUsers : ℤ
deriving DecidableEq

/-- The setInterval callback of enduranceTest (logger.ts 326-340) at instant
`T`: read the shared metrics as they stand and append one snapshot. -/
def snapshotAt (users : ℤ) (dl now0 : ℚ) (traces : ℕ → List IterRec) (T : ℚ) :
    EnduranceSnapshot :=
  let acc :=
    (List.range users.toNat).foldl
      (fun (p : List ℚ × ℕ) i =>
        let r := recordsUpTo 1000 dl T now0 (traces i)
        (p.1 ++ r.1, p.2 + r.2))
      ([], 0)
  { timestamp := T
    avgResponseTime := if 0 < acc.1.length then acc.1.sum / (acc.1.length : ℚ) else 0
    errorRate :=
      if acc.1.length + acc.2 = 0 then none
      else some (((acc.2 : ℚ) / ((acc.1.length : ℚ) + (acc.2 : ℚ))) * 100)
    activeUsers := users }

/-- Number of timer callbacks that fire before the interval is cleared:
setInterval fires at `k * intervalMs` for `k ≥ 1`; the await-continuation
that clears it is a microtask and runs before a callback due at the very
same instant, so exactly the ticks strictly before the join fire. -/
def nTicksFor (intervalMs elapsed : ℚ) : ℕ := (⌈elapsed / intervalMs⌉ - 1).toNat

/-- EnduranceTestResult (logger.ts 559-567) without `testType`/`timestamp`.
The three reductions are unguarded JavaScript arithmetic: over an empty
snapshot list they are non-finite (0/0 and `Math.max()` = -Infinity),
hence `Option ℚ`. -/
structure EnduranceTestResult' where
  monitoringData : List EnduranceSnapshot
  avgResponseTime : Option ℚ
  maxResponseTime : Option ℚ
  avgErrorRate : Option ℚ
  duration : ℚ
deriving DecidableEq

/-- generateEnduranceTestResult (logger.ts 499-513). -/
def generateEnduranceTestResult (monitoringData : List EnduranceSnapshot)
    (startTime endTime : ℚ) : EnduranceTestResult' :=
  let n := monitoringData.length
  { monitoringData := monitoringData
    avgResponseTime :=
      if n = 0 then none
      else some ((monitoringData.map (·.avgResponseTime)).sum / (n : ℚ))
    maxResponseTime :=
      if n = 0 then none else some (listMax (monitoringData.map (·.avgResponseTime)))
    avgErrorRate :=
      if n = 0 then none
      else ((monitoringData.map (·.errorRate)).foldl jsAdd (some 0)).map (· / (n : ℚ))
    duration := (endTime - startTime) / (1000 * 60 * 60) }

/-- An endurance run: the actors' deadline, the join instant at which the
monitoring timer is cleared, and the result. -/
structure EnduranceRun where
  deadline : ℚ
  joinTime : ℚ
  result : EnduranceTestResult'
deriving DecidableEq

/-- enduranceTest (logger.ts 296-348): `users` actors with a fixed 1000 ms
think time until `duration` hours elapse; a timer snapshots the shared
metrics every `monitoringInterval` minutes and is cleared once all actors
have joined.  Non-positive timer periods (which Node clamps to 1 ms) are
outside the model. -/
def enduranceTest (users : ℤ) (durationHours monitoringInterval now0 : ℚ)
    (traces : ℕ → List IterRec) : Option EnduranceRun :=
  let endTime := now0 + durationHours * 60 * 60 * 1000
  let intervalMs := monitoringInterval * 60 * 1000
  if intervalMs ≤ 0 then none
  else
    match joinActors 1000 endTime now0 (fun _ => now0) traces users.toNat with
    | none => none
    | some (j, _, _) =>
      let n := nTicksFor intervalMs (j - now0)
      let monitoringData :=
        (List.range n).map fun (k : ℕ) =>
          snapshotAt users endTime now0 traces (now0 + ((k : ℚ) + 1) * intervalMs)
      some { deadline := endTime
             joinTime := j
             result := generateEnduranceTestResult monitoringData now0 j }

/-! Helper lemmas about the actor loops and the aggregates. -/

theorem simulateUser_spec (thinkTime dl : ℚ) :
    ∀ (trace : List IterRec) (now : ℚ) (a : ActorRun),
      simulateUser thinkTime dl now trace = some a →
      a.calls ≤ trace.length ∧
      a.lats = ((trace.take a.calls).filter (·.ok)).map (·.elapsed) ∧
      a.errs = ((trace.take a.calls).filter fun it => !it.ok).length ∧
      a.exitTime = checkTime thinkTime now trace a.calls ∧
      dl ≤ a.exitTime ∧
      ∀ j, j < a.calls → checkTime thinkTime now trace j < dl := by
  intro trace
  induction trace with
  | nil =>
    intro now a h
    rw [simulateUser] at h
    by_cases hdl : dl ≤ now
    · rw [if_pos hdl] at h
      injection h with h'
      subst h'
      exact ⟨Nat.le_refl _, rfl, rfl, rfl, hdl, by intro j hj; simp at hj⟩
    · rw [if_neg hdl] at h
      exact absurd h (by simp)
  | cons it rest ih =>
    intro now a h
    rw [simulateUser] at h
    by_cases hdl : dl ≤ now
    · rw [if_pos hdl] at h
      injection h with h'
      subst h'
      exact ⟨Nat.zero_le _, rfl, rfl, rfl, hdl, by intro j hj; simp at hj⟩
    · rw [if_neg hdl] at h
      rcases Option.map_eq_some'.mp h with ⟨a', ha', rfl⟩
      obtain ⟨h1, h2, h3, h4, h5, h6⟩ := ih (now + it.elapsed + pace thinkTime) a' ha'
      refine ⟨by simpa using Nat.succ_le_succ h1, ?_, ?_, ?_, h5, ?_⟩
      · cases hk : it.ok <;>
          simp [List.take_succ_cons, List.filter_cons, hk, h2]
      · cases hk : it.ok <;>
          simp [List.take_succ_cons, List.filter_cons, hk, h3] <;> omega
      · simpa [checkTime] using h4
      · intro j hj
        cases j with
        | zero => simpa [checkTime] using lt_of_not_le hdl
        | succ k =>
          have := h6 k (by simpa using hj)
          simpa [checkTime] using this

theorem simulateUser_allOk (thinkTime dl : ℚ) :
    ∀ (trace : List IterRec) (now : ℚ) (a : ActorRun),
      simulateUser thinkTime dl now trace = some a →
      simulateUser thinkTime dl now (trace.map fun it => ⟨it.elapsed, true⟩) =
        some ⟨a.exitTime, (trace.take a.calls).map (·.elapsed), 0, a.calls⟩ := by
  intro trace
  induction trace with
  | nil =>
    intro now a h
    rw [simulateUser] at h
    by_cases hdl : dl ≤ now
    · rw [if_pos hdl] at h
      injection h with h'
      subst h'
      simp only [List.map_nil]
      rw [simulateUser]
      simp [hdl]
    · rw [if_neg hdl] at h
      exact absurd h (by simp)
  | cons it rest ih =>
    intro now a h
    rw [simulateUser] at h
    by_cases hdl : dl ≤ now
    · rw [if_pos hdl] at h
      injection h with h'
      subst h'
      simp only [List.map_cons]
      rw [simulateUser]
      simp [hdl]
    · rw [if_neg hdl] at h
      rcases Option.map_eq_some'.mp h with ⟨a', ha', rfl⟩
      have := ih (now + it.elapsed + pace thinkTime) a' ha'
      simp only [List.map_cons]
      rw [simulateUser, if_neg hdl]
      rw [this]
      simp [List.take_succ_cons]

theorem simulateUserPhase_spec (dl : ℚ) :
    ∀ (trace : List IterRec) (now : ℚ) (rts : List ℚ) (errs : ℕ) (a : PhaseActorRun),
      simulateUserPhase dl now trace rts errs = some a →
      a.calls ≤ trace.length ∧
      a.responseTimes = rts ++ ((trace.take a.calls).filter (·.ok)).map (·.elapsed) ∧
      a.errors = errs + ((trace.take a.calls).filter fun it => !it.ok).length ∧
      dl ≤ a.exitTime := by
  intro trace
  induction trace with
  | nil =>
    intro now rts errs a h
    rw [simulateUserPhase] at h
    by_cases hdl : dl ≤ now
    · rw [if_pos hdl] at h
      injection h with h'
      subst h'
      exact ⟨Nat.le_refl _, by simp, by simp, hdl⟩
    · rw [if_neg hdl] at h
      exact absurd h (by simp)
  | cons it rest ih =>
    intro now rts errs a h
    rw [simulateUserPhase] at h
    by_cases hdl : dl ≤ now
    · rw [if_pos hdl] at h
      injection h with h'
      subst h'
      exact ⟨Nat.zero_le _, by simp, by simp, hdl⟩
    · rw [if_neg hdl] at h
      rcases Option.map_eq_some'.mp h with ⟨a', ha', rfl⟩
      obtain ⟨h1, h2, h3, h4⟩ := ih (now + it.elapsed) _ _ a' ha'
      refine ⟨by simpa using Nat.succ_le_succ h1, ?_, ?_, h4⟩
      · cases hk : it.ok <;>
          simp only [hk] at h2 <;>
          simp [List.take_succ_cons, List.filter_cons, hk, h2]
      · cases hk : it.ok <;>
          simp only [hk] at h3 <;>
          simp [List.take_succ_cons, List.filter_cons, hk, h3] <;> omega

theorem applyEvents_closed (evts : List RecordEvent) :
    ∀ m : Metrics,
      (applyEvents m evts).responseTimes = m.responseTimes ++ evts.filterMap eventLat ∧
      (applyEvents m evts).errors = m.errors + countFailure evts := by
  induction evts with
  | nil => intro m; simp [applyEvents, countFailure]
  | cons e t ih =>
    intro m
    cases e with
    | success l =>
      have := ih (applyEvent m (.success l))
      simp only [applyEvents, List.foldl_cons] at this ⊢
      simp [applyEvent, recordSuccess, countFailure, isSuccessEvent, eventLat,
        List.filter_cons, List.filterMap_cons] at this ⊢
      exact ⟨by rw [this.1], this.2⟩
    | failure =>
      have := ih (applyEvent m .failure)
      simp only [applyEvents, List.foldl_cons] at this ⊢
      simp [applyEvent, recordFailure, countFailure, isSuccessEvent, eventLat,
        List.filter_cons, List.filterMap_cons] at this ⊢
      exact ⟨this.1, by rw [this.2]; omega⟩

theorem filterMap_eventLat_length (evts : List RecordEvent) :
    (evts.filterMap eventLat).length = countSuccess evts := by
  induction evts with
  | nil => simp [countSuccess]
  | cons e t ih =>
    cases e <;>
      simp [countSuccess, isSuccessEvent, eventLat, List.filter_cons, List.filterMap_cons,
        ih, countSuccess]

theorem foldl_min_le (xs : List ℚ) :
    ∀ (z : ℚ), ∀ y ∈ z :: xs, xs.foldl min z ≤ y := by
  induction xs with
  | nil => intro z y hy; simp at hy; simp [hy]
  | cons w ws ih =>
    intro z y hy
    simp only [List.foldl_cons]
    rcases List.mem_cons.mp hy with heq | hy'
    · rw [heq]
      exact le_trans (ih (min z w) (min z w) (List.mem_cons_self _ _)) (min_le_left _ _)
    rcases List.mem_cons.mp hy' with heq' | hy''
    · rw [heq']
      exact le_trans (ih (min z w) (min z w) (List.mem_cons_self _ _)) (min_le_right _ _)
    · exact ih (min z w) y (List.mem_cons_of_mem _ hy'')

theorem le_foldl_max (xs : List ℚ) :
    ∀ (z : ℚ), ∀ y ∈ z :: xs, y ≤ xs.foldl max z := by
  induction xs with
  | nil => intro z y hy; simp at hy; simp [hy]
  | cons w ws ih =>
    intro z y hy
    simp only [List.foldl_cons]
    rcases List.mem_cons.mp hy with heq | hy'
    · rw [heq]
      exact le_trans (le_max_left _ _) (ih (max z w) (max z w) (List.mem_cons_self _ _))
    rcases List.mem_cons.mp hy' with heq' | hy''
    · rw [heq']
      exact le_trans (le_max_right _ _) (ih (max z w) (max z w) (List.mem_cons_self _ _))
    · exact ih (max z w) y (List.mem_cons_of_mem _ hy'')

theorem listMin_le (l : List ℚ) : ∀ y ∈ l, listMin l ≤ y := by
  cases l with
  | nil => simp
  | cons x xs => exact fun y hy => foldl_min_le xs x y hy

theorem le_listMax (l : List ℚ) : ∀ y ∈ l, y ≤ listMax l := by
  cases l with
  | nil => simp
  | cons x xs => exact fun y hy => le_foldl_max xs x y hy

theorem mul_length_le_sum (l : List ℚ) (m : ℚ) (h : ∀ y ∈ l, m ≤ y) :
    m * l.length ≤ l.sum := by
  induction l with
  | nil => simp
  | cons x xs ih =>
    have hx := h x (List.mem_cons_self _ _)
    have hxs := ih fun y hy => h y (List.mem_cons_of_mem _ hy)
    simp only [List.sum_cons, List.length_cons]
    push_cast
    nlinarith

theorem sum_le_mul_length (l : List ℚ) (m : ℚ) (h : ∀ y ∈ l, y ≤ m) :
    l.sum ≤ m * l.length := by
  induction l with
  | nil => simp
  | cons x xs ih =>
    have hx := h x (List.mem_cons_self _ _)
    have hxs := ih fun y hy => h y (List.mem_cons_of_mem _ hy)
    simp only [List.sum_cons, List.length_cons]
    push_cast
    nlinarith

theorem listMin_le_avg (l : List ℚ) (hne : l ≠ []) :
    listMin l ≤ l.sum / (l.length : ℚ) := by
  have hlen : (0 : ℚ) < (l.length : ℚ) := by
    have := List.length_pos.mpr hne
    exact_mod_cast this
  rw [le_div_iff₀ hlen]
  exact mul_length_le_sum l (listMin l) (listMin_le l)

theorem avg_le_listMax (l : List ℚ) (hne : l ≠ []) :
    l.sum / (l.length : ℚ) ≤ listMax l := by
  have hlen : (0 : ℚ) < (l.length : ℚ) := by
    have := List.length_pos.mpr hne
    exact_mod_cast this
  rw [div_le_iff₀ hlen]
  exact sum_le_mul_length l (listMax l) (le_listMax l)

theorem simulateUser_dl_le (thinkTime dl now : ℚ) (trace : List IterRec) (a : ActorRun)
    (h : simulateUser thinkTime dl now trace = some a) : dl ≤ a.exitTime :=
  (simulateUser_spec thinkTime dl trace now a h).2.2.2.2.1

theorem joinActors_dl_le (thinkTime dl joinInit : ℚ) (start : ℕ → ℚ)
    (traces : ℕ → List IterRec) (n : ℕ) (hn : 0 < n) (j : ℚ) (lats : List ℚ) (errs : ℕ)
    (h : joinActors thinkTime dl joinInit start traces n = some (j, lats, errs)) : dl ≤ j := by
  obtain ⟨m, rfl⟩ : ∃ m, n = m + 1 := ⟨n - 1, by omega⟩
  rw [joinActors] at h
  cases hj : joinActors thinkTime dl joinInit start traces m with
  | none => rw [hj] at h; exact absurd h (by simp)
  | some p =>
    obtain ⟨j', lats', errs'⟩ := p
    rw [hj] at h
    cases ha : simulateUser thinkTime dl (start m) (traces m) with
    | none => rw [ha] at h; exact absurd h (by simp)
    | some a =>
      rw [ha] at h
      injection h with h'
      injection h' with h1 h2
      subst h1
      exact le_trans (simulateUser_dl_le _ _ _ _ _ ha) (le_max_right _ _)

theorem simulateUserPhase_dl_le (dl now : ℚ) (trace : List IterRec) (rts : List ℚ)
    (errs : ℕ) (a : PhaseActorRun) (h : simulateUserPhase dl now trace rts errs = some a) :
    dl ≤ a.exitTime :=
  (simulateUserPhase_spec dl trace now rts errs a h).2.2.2

theorem joinActorsPhase_dl_le (dl startT : ℚ) (traces : ℕ → List IterRec)
    (phaseErrors : ℕ) (n : ℕ) (hn : 0 < n) (j : ℚ) (rts : List ℚ)
    (h : joinActorsPhase dl startT traces phaseErrors n = some (j, rts)) : dl ≤ j := by
  obtain ⟨m, rfl⟩ : ∃ m, n = m + 1 := ⟨n - 1, by omega⟩
  rw [joinActorsPhase] at h
  cases hj : joinActorsPhase dl startT traces phaseErrors m with
  | none => rw [hj] at h; exact absurd h (by simp)
  | some p =>
    obtain ⟨j', rts'⟩ := p
    rw [hj] at h
    dsimp only at h
    cases ha : simulateUserPhase dl startT (traces m) rts' phaseErrors with
    | none => rw [ha] at h; exact absurd h (by simp)
    | some a =>
      rw [ha] at h
      injection h with h'
      injection h' with h1 h2
      subst h1
      exact le_trans (simulateUserPhase_dl_le _ _ _ _ _ _ ha) (le_max_right _ _)

theorem stressStep_shape (d : ℚ) (u : ℤ) (now : ℚ) (tr : ℕ → List IterRec) (j : ℚ)
    (s : StressSample) (h : stressStep d u now tr = some (j, s)) :
    s.users = u ∧ now + d * 1000 ≤ j ∨ s.users = u ∧ u.toNat = 0 := by
  simp only [stressStep] at h
  cases hj : joinActors 0 (now + d * 1000) now (fun _ => now) tr u.toNat with
  | none => rw [hj] at h; exact absurd h (by simp)
  | some p =>
    obtain ⟨j', lats, errs⟩ := p
    rw [hj] at h
    dsimp only at h
    injection h with h'
    injection h' with h1 h2
    by_cases hz : u.toNat = 0
    · exact Or.inr ⟨by rw [← h2], hz⟩
    · refine Or.inl ⟨by rw [← h2], ?_⟩
      rw [← h1]
      exact joinActors_dl_le 0 _ now (fun _ => now) tr u.toNat (Nat.pos_of_ne_zero hz)
        j' lats errs hj

theorem stressStep_users (d : ℚ) (u : ℤ) (now : ℚ) (tr : ℕ → List IterRec) (j : ℚ)
    (s : StressSample) (h : stressStep d u now tr = some (j, s)) : s.users = u := by
  rcases stressStep_shape d u now tr j s h with ⟨hu, _⟩ | ⟨hu, _⟩ <;> exact hu

theorem stressLoop_spec (M S : ℤ) (d e T : ℚ) (tr : ℕ → ℕ → List IterRec) :
    ∀ (fuel : ℕ) (u : ℤ) (idx : ℕ) (now : ℚ) (acc : List StressSample) (t : ℚ)
      (out : List StressSample),
      stressLoop M S d e T tr fuel u idx now acc = some (t, out) →
      ∃ new, out = acc ++ new ∧
        new.map (·.users) = (List.range new.length).map (fun (j : ℕ) => u + (j : ℤ) * S) ∧
        (∀ j, j < new.length → u + (j : ℤ) * S ≤ M) ∧
        (∀ r ∈ new.dropLast, rateGe r.errorRate T = false) ∧
        ((new = [] ∧ t = now ∧ (M < u ∨ e ≤ now)) ∨
         (new ≠ [] ∧
           ((∃ r, new.getLast? = some r ∧ rateGe r.errorRate T = true) ∨
             M < u + (new.length : ℤ) * S ∨ e ≤ t))) := by
  intro fuel
  induction fuel with
  | zero => intro u idx now acc t out h; rw [stressLoop] at h; exact absurd h (by simp)
  | succ f ih =>
    intro u idx now acc t out h
    rw [stressLoop] at h
    by_cases hc : u ≤ M ∧ now < e
    · rw [if_pos hc] at h
      cases hstep : stressStep d u now (tr idx) with
      | none => rw [hstep] at h; exact absurd h (by simp)
      | some p =>
        obtain ⟨j, s⟩ := p
        rw [hstep] at h
        dsimp only at h
        have hus : s.users = u := stressStep_users d u now (tr idx) j s hstep
        by_cases hr : rateGe s.errorRate T = true
        · rw [if_pos hr] at h
          injection h with h'
          injection h' with h1 h2
          refine ⟨[s], h2.symm, ?_, ?_, by simp, Or.inr ⟨by simp, Or.inl ⟨s, rfl, hr⟩⟩⟩
          · simp [List.range_succ, hus]
          · intro j hj
            simp only [List.length_cons, List.length_nil] at hj
            have hj0 : j = 0 := by omega
            subst hj0
            simpa using hc.1
        · rw [if_neg hr] at h
          obtain ⟨new', hout, hmap, hle, hdrop, hterm⟩ :=
            ih (u + S) (idx + 1) j (acc ++ [s]) t out h
          have hrF : rateGe s.errorRate T = false := by
            revert hr; cases rateGe s.errorRate T <;> simp
          refine ⟨s :: new', by simpa [List.append_assoc] using hout, ?_, ?_, ?_, ?_⟩
          · rw [List.map_cons, List.length_cons, List.range_succ_eq_map, List.map_cons,
              List.map_map, hmap]
            refine List.cons_eq_cons.mpr ⟨by simp [hus], ?_⟩
            apply List.map_congr_left
            intro j hj
            simp only [Function.comp_apply]
            push_cast
            ring
          · intro j hj
            cases j with
            | zero => simpa using hc.1
            | succ k =>
              have := hle k (by simpa using hj)
              have hcast : ((k + 1 : ℕ) : ℤ) = (k : ℤ) + 1 := by push_cast; ring
              rw [hcast]
              linarith [this]
          · intro r hr'
            cases new' with
            | nil => simp at hr'
            | cons b bs =>
              rw [List.dropLast_cons₂] at hr'
              rcases List.mem_cons.mp hr' with heq | hr''
              · rw [heq]; exact hrF
              · exact hdrop r hr''
          · refine Or.inr ⟨by simp, ?_⟩
            rcases hterm with ⟨hnil, ht, hcond⟩ | ⟨hne', hdisj⟩
            · subst hnil
              rcases hcond with hM | he'
              · right; left
                simp only [List.length_cons, List.length_nil]
                push_cast
                linarith
              · right; right
                rw [ht]
                exact he'
            · rcases hdisj with ⟨r, hlast, hrT⟩ | hM | he'
              · left
                refine ⟨r, ?_, hrT⟩
                cases new' with
                | nil => exact absurd rfl hne'
                | cons b bs => rw [List.getLast?_cons_cons]; exact hlast
              · right; left
                simp only [List.length_cons]
                push_cast at hM ⊢
                linarith
              · right; right; exact he'
    · rw [if_neg hc] at h
      injection h with h'
      injection h' with h1 h2
      refine ⟨[], by simp [h2.symm], by simp, ?_, by simp, Or.inl ⟨rfl, h1.symm, ?_⟩⟩
      · intro j hj; simp at hj
      · rcases Decidable.not_and_iff_or_not.mp hc with hM | he'
        · exact Or.inl (lt_of_not_le hM)
        · exact Or.inr (le_of_not_lt he')

theorem lt_nTicksFor_iff (I e : ℚ) (hI : 0 < I) (k : ℕ) :
    k < nTicksFor I e ↔ ((k : ℚ) + 1) * I < e := by
  unfold nTicksFor
  rw [Int.lt_toNat]
  have h1 : ((k : ℤ) < ⌈e / I⌉ - 1) ↔ ((k : ℤ) + 1 < ⌈e / I⌉) := by omega
  rw [h1, Int.lt_ceil, lt_div_iff₀ hI]
  constructor
  · intro h; push_cast at h; linarith
  · intro h; push_cast; linarith

theorem runPhase_spec (u : ℤ) (duration now : ℚ) (traces : ℕ → List IterRec)
    (p : SpikePhaseLog) (h : runPhase u duration now traces = some p) :
    p.startTime = now ∧ p.deadline = now + duration * 1000 ∧
    p.sample.users = u ∧
    p.sample.avgResponseTime =
      (if 0 < p.responseTimes.length then p.responseTimes.sum / (p.responseTimes.length : ℚ)
        else 0) ∧
    p.sample.errorRate = (if p.responseTimes.length = 0 then none else some 0) ∧
    (1 ≤ u → p.deadline ≤ p.joinTime) := by
  simp only [runPhase] at h
  cases hj : joinActorsPhase (now + duration * 1000) now traces 0 u.toNat with
  | none => rw [hj] at h; exact absurd h (by simp)
  | some q =>
    obtain ⟨j, rts⟩ := q
    rw [hj] at h
    dsimp only at h
    injection h with h'
    subst h'
    refine ⟨rfl, rfl, rfl, by simp, ?_, ?_⟩
    · by_cases hz : rts.length = 0 <;> simp [hz]
    · intro hu
      have hpos : 0 < u.toNat := by omega
      exact joinActorsPhase_dl_le _ _ _ _ _ hpos _ _ hj

theorem filter_length_split (l : List IterRec) :
    (l.filter (·.ok)).length + (l.filter fun it => !it.ok).length = l.length := by
  induction l with
  | nil => simp
  | cons it rest ih =>
    cases hk : it.ok <;> simp [List.filter_cons, hk] <;> omega

theorem countFailure_perm {l l' : List RecordEvent} (h : l.Perm l') :
    countFailure l = countFailure l' := by
  unfold countFailure
  rw [← List.countP_eq_length_filter, ← List.countP_eq_length_filter]
  exact h.countP_eq _

/-! The claims.  Concrete evaluations in the witnesses go through `decide`,
which needs the Batteries rational operations unfolded for kernel
reduction. -/

section ClaimsAndWitnesses

attribute [local semireducible] Rat.add Rat.mul Rat.inv Rat.sub Rat.ofScientific

/-- C2 (counterexample): in a spike phase the failure counter that feeds the
phase's error rate is a by-value copy.  Here one actor makes two
invocations, one of which fails (`simulateUserPhase` sees 1 recorded error
and 2 calls), yet the phase metrics feeding the returned sample hold 1
latency and 0 failures — errorRate `some 0` — so result-feeding successes +
failures = 1 + 0 ≠ 2 = invocations made, falsifying the claim for
spikeTest. -/
theorem C2_counterexample_spike_failure_dropped :
    simulateUserPhase 1000 0 [⟨500, false⟩, ⟨600, true⟩] [] 0 = some ⟨1100, [600], 1, 2⟩ ∧
    runPhase 1 1 0 (fun _ => [⟨500, false⟩, ⟨600, true⟩]) =
      some ⟨0, 1000, 1100, [600], ⟨1, 600, some 0⟩⟩ ∧
    1 + 0 ≠ 2 := by
  refine ⟨by decide, by decide, by decide⟩

/-- C2 (amended): every operation invocation records exactly one outcome in
the accumulators the actor writes — one latency entry on completion (the
failure count untouched), one failure increment on an error (no latency) —
so recorded successes + failures equals the invocations made.  For
`simulateUser` (loadTest, stressTest, enduranceTest) those accumulators are
the shared metrics that feed the run's result; for `simulateUserPhase`
(spikeTest) the latency array is the phase's, while the failure increments
land in the actor's by-value copy of `phaseErrors` and never reach the
phase result. -/
theorem C2_one_outcome_per_invocation :
    (∀ (thinkTime dl now : ℚ) (trace : List IterRec) (a : ActorRun),
      simulateUser thinkTime dl now trace = some a →
      a.lats.length = ((trace.take a.calls).filter (·.ok)).length ∧
      a.errs = ((trace.take a.calls).filter fun it => !it.ok).length ∧
      a.lats.length + a.errs = a.calls) ∧
    (∀ (dl now : ℚ) (trace : List IterRec) (rts : List ℚ) (errs : ℕ) (a : PhaseActorRun),
      simulateUserPhase dl now trace rts errs = some a →
      a.responseTimes.length = rts.length + ((trace.take a.calls).filter (·.ok)).length ∧
      a.errors = errs + ((trace.take a.calls).filter fun it => !it.ok).length ∧
      (a.responseTimes.length - rts.length) + (a.errors - errs) = a.calls) := by
  constructor
  · intro thinkTime dl now trace a h
    obtain ⟨h1, h2, h3, _, _, _⟩ := simulateUser_spec thinkTime dl trace now a h
    have hsplit := filter_length_split (trace.take a.calls)
    have hlen : (trace.take a.calls).length = a.calls := by
      rw [List.length_take]; omega
    refine ⟨by rw [h2, List.length_map], h3, ?_⟩
    rw [h2, h3, List.length_map]
    omega
  · intro dl now trace rts errs a h
    obtain ⟨h1, h2, h3, _⟩ := simulateUserPhase_spec dl trace now rts errs a h
    have hsplit := filter_length_split (trace.take a.calls)
    have hlen : (trace.take a.calls).length = a.calls := by
      rw [List.length_take]; omega
    refine ⟨by rw [h2]; simp, by rw [h3], ?_⟩
    rw [h2, h3]
    simp only [List.length_append, List.length_map]
    omega

/-- C5: for every completed load run the result satisfies
totalRequests = successfulRequests + failedRequests,
errorRate = failed / (failed + successful) × 100 (0 when no requests were
made), throughput = totalRequests divided by the elapsed wall-clock seconds
(whenever that elapsed time is positive; `duration` is exactly the elapsed
seconds), and, whenever at least one latency was recorded,
minResponseTime ≤ avgResponseTime ≤ maxResponseTime. -/
theorem C5_load_result_invariants (duration : ℚ) (users : ℤ)
    (rampUpTime thinkTime now0 : ℚ) (traces : ℕ → List IterRec) (r : LoadTestResult')
    (h : loadTest duration users rampUpTime thinkTime now0 traces = some r) :
    r.totalRequests = r.successfulRequests + r.failedRequests ∧
    (0 < r.totalRequests →
      r.errorRate =
        ((r.failedRequests : ℚ) / ((r.failedRequests : ℚ) + (r.successfulRequests : ℚ))) * 100) ∧
    (r.totalRequests = 0 → r.errorRate = 0) ∧
    (0 < r.duration → r.throughput = some ((r.totalRequests : ℚ) / r.duration)) ∧
    (0 < r.successfulRequests →
      r.minResponseTime ≤ r.avgResponseTime ∧ r.avgResponseTime ≤ r.maxResponseTime) := by
  simp only [loadTest] at h
  cases hj : joinActors thinkTime (now0 + duration * 1000) (max now0 (now0 + duration * 1000))
      (fun i => now0 + (i : ℚ) *
        (if 0 < rampUpTime ∧ users ≠ 0 then rampUpTime * 1000 / (users : ℚ) else 0))
      traces
      (spawnCount users
        (if 0 < rampUpTime ∧ users ≠ 0 then rampUpTime * 1000 / (users : ℚ) else 0)
        now0 (now0 + duration * 1000)) with
  | none => rw [hj] at h; exact absurd h (by simp)
  | some p =>
    obtain ⟨j, lats, errs⟩ := p
    rw [hj] at h
    dsimp only at h
    injection h with h'
    subst h'
    simp only [generateLoadTestResult]
    refine ⟨by trivial, ?_, ?_, ?_, ?_⟩
    · intro hpos
      rw [if_pos hpos]
      have : ((lats.length + errs : ℕ) : ℚ) = (errs : ℚ) + (lats.length : ℚ) := by
        push_cast; ring
      rw [this]
    · intro hz
      rw [if_neg (by omega)]
    · intro hd
      have hne : (j - now0) / 1000 ≠ 0 := ne_of_gt hd
      simp only [jsDiv, if_neg hne]
    · intro hpos
      rw [if_pos hpos, if_pos hpos, if_pos hpos]
      have hne : lats ≠ [] := by
        intro hc; rw [hc] at hpos; simp at hpos
      exact ⟨listMin_le_avg lats hne, avg_le_listMax lats hne⟩

/-- C6: a failing operation invocation is caught inside the actor's loop and
counted; the actor's exit instant and call count are exactly those of the
same run with every invocation succeeding, so an error never terminates the
actor (and, the catch being local, never propagates past it); the deadline
is consulted only at iteration boundaries — every executed iteration began
strictly before the deadline, the in-flight call completing — and the actor
exits at the first boundary at or past the deadline. -/
theorem C6_failure_isolation_and_deadline (thinkTime dl now : ℚ) (trace : List IterRec)
    (a : ActorRun) (h : simulateUser thinkTime dl now trace = some a) :
    simulateUser thinkTime dl now (trace.map fun it => ⟨it.elapsed, true⟩) =
      some ⟨a.exitTime, (trace.take a.calls).map (·.elapsed), 0, a.calls⟩ ∧
    a.errs = ((trace.take a.calls).filter fun it => !it.ok).length ∧
    dl ≤ a.exitTime ∧
    a.exitTime = checkTime thinkTime now trace a.calls ∧
    (∀ j, j < a.calls → checkTime thinkTime now trace j < dl) := by
  obtain ⟨_, _, h3, h4, h5, h6⟩ := simulateUser_spec thinkTime dl trace now a h
  exact ⟨simulateUser_allOk thinkTime dl trace now a h, h3, h5, h4, h6⟩

/-- C10: the shared metrics accumulator is safe under arbitrary interleaving
of the actors' atomic record events (in the Node.js event loop a push and an
increment are single uninterruptible steps): after any prefix of any
interleaving, a snapshot read sees exactly the initial counts plus one
latency entry per success event and one failure increment per failure event
of that prefix — no lost updates, no torn reads — and any two interleavings
of the same events yield identical failure counts and permuted (equal as
multisets) latency sequences. -/
theorem C10_metrics_interleaving_safety (m : Metrics) (evts : List RecordEvent) :
    (∀ k : ℕ,
      (getCurrentMetrics (applyEvents m (evts.take k))).responseTimes.length =
          m.responseTimes.length + countSuccess (evts.take k) ∧
      (getCurrentMetrics (applyEvents m (evts.take k))).errors =
          m.errors + countFailure (evts.take k)) ∧
    (∀ evts' : List RecordEvent, evts.Perm evts' →
      (applyEvents m evts).errors = (applyEvents m evts').errors ∧
      (applyEvents m evts).responseTimes.Perm (applyEvents m evts').responseTimes) := by
  constructor
  · intro k
    obtain ⟨h1, h2⟩ := applyEvents_closed (evts.take k) m
    refine ⟨?_, by simpa [getCurrentMetrics] using h2⟩
    simp only [getCurrentMetrics, h1, List.length_append]
    rw [filterMap_eventLat_length]
  · intro evts' hperm
    obtain ⟨h1, h2⟩ := applyEvents_closed evts m
    obtain ⟨h1', h2'⟩ := applyEvents_closed evts' m
    constructor
    · rw [h2, h2', countFailure_perm hperm]
    · rw [h1, h1']
      exact (hperm.filterMap eventLat).append_left m.responseTimes

/-- C1: for every stress run that executed at least one step, the reported
breakingPoint is the concurrency of the first sample whose error rate
reached the fixed classification threshold 5 — the literal 5 of
generateStressTestResult, for every caller-supplied errorThreshold T — and
the concurrency of the final executed step when no sample reached 5. -/
theorem C1_breaking_point_classification (M S : ℤ) (d maxD T now0 : ℚ)
    (tr : ℕ → ℕ → List IterRec) (fuel : ℕ) (t : ℚ) (res : StressTestResult')
    (hS : 1 ≤ S)
    (h : stressTest M S d maxD T now0 tr fuel = some (t, res))
    (hne : res.results ≠ []) :
    res.breakingPoint =
      ((res.results.find? fun r => rateGe r.errorRate 5).map (·.users)).getD
        ((res.results.getLast?.map (·.users)).getD 0) := by
  simp only [stressTest] at h
  cases hl : stressLoop M S d (now0 + maxD * 1000) T tr fuel S 0 now0 [] with
  | none => rw [hl] at h; exact absurd h (by simp)
  | some p =>
    obtain ⟨t', samples⟩ := p
    rw [hl] at h
    dsimp only at h
    injection h with h'
    injection h' with ht hres
    obtain ⟨new, hnew, hmap, _, _, _⟩ :=
      stressLoop_spec M S d (now0 + maxD * 1000) T tr fuel S 0 now0 [] t' samples hl
    rw [List.nil_append] at hnew
    subst hnew
    have hresults : res.results = samples := by rw [← hres]; rfl
    have hpos : ∀ r ∈ res.results, r.users ≠ 0 := by
      intro r hr
      have hmem : r.users ∈ res.results.map (·.users) := List.mem_map_of_mem _ hr
      rw [hresults] at hmem
      rw [hmap] at hmem
      rcases List.mem_map.mp hmem with ⟨j, _, hval⟩
      have hj0 : (0 : ℤ) ≤ (j : ℤ) := Int.natCast_nonneg j
      have : 0 < S + (j : ℤ) * S := by nlinarith
      omega
    rw [← hres]
    simp only [generateStressTestResult, hresults]
    cases hf : samples.find? fun r => rateGe r.errorRate 5 with
    | some r =>
      have hmem : r ∈ samples := List.mem_of_find?_eq_some hf
      have hz := hpos r (by rwa [hresults])
      simp [jsOrUsers, hz]
    | none =>
      have hne' : samples ≠ [] := by rwa [hresults] at hne
      obtain ⟨r, hlast⟩ : ∃ r, samples.getLast? = some r := by
        cases hg : samples.getLast? with
        | none =>
          exfalso
          have := List.getLast?_isSome.mpr hne'
          rw [hg] at this
          exact absurd this (by simp)
        | some r => exact ⟨r, rfl⟩
      have hmem : r ∈ samples := List.mem_of_getLast?_eq_some hlast
      have hz := hpos r (by rwa [hresults])
      simp [jsOrUsers, hlast, hz]

/-- C3: for every stress run, the sample concurrencies are S, 2S, 3S, …
(strictly increasing by S from S); every executed step's concurrency is at
most M, so at most ⌈M/S⌉ steps run; no non-final step's error rate reached
the caller's threshold T, and the run ended because the next concurrency
would exceed M, or the elapsed time reached the maximum duration, or the
final step's error rate reached T; in particular with maxUsers = 20 and
stepSize = 5, when no step's error rate reaches T and time does not run
out, the sample concurrencies are exactly [5, 10, 15, 20]. -/
theorem C3_stress_escalation (M S : ℤ) (d maxD T now0 : ℚ) (tr : ℕ → ℕ → List IterRec)
    (fuel : ℕ) (t : ℚ) (res : StressTestResult')
    (hS : 1 ≤ S)
    (h : stressTest M S d maxD T now0 tr fuel = some (t, res)) :
    res.results.map (·.users) =
      (List.range res.results.length).map (fun (j : ℕ) => ((j : ℤ) + 1) * S) ∧
    (∀ j, j < res.results.length → ((j : ℤ) + 1) * S ≤ M) ∧
    res.results.length ≤ (⌈(M : ℚ) / (S : ℚ)⌉).toNat ∧
    (∀ r ∈ res.results.dropLast, rateGe r.errorRate T = false) ∧
    ((res.results = [] ∧ t = now0 ∧ (M < S ∨ now0 + maxD * 1000 ≤ now0)) ∨
     (res.results ≠ [] ∧
       ((∃ r, res.results.getLast? = some r ∧ rateGe r.errorRate T = true) ∨
         M < ((res.results.length : ℤ) + 1) * S ∨ now0 + maxD * 1000 ≤ t))) ∧
    (M = 20 → S = 5 → (∀ r ∈ res.results, rateGe r.errorRate T = false) →
      t < now0 + maxD * 1000 → res.results.map (·.users) = [5, 10, 15, 20]) := by
  simp only [stressTest] at h
  cases hl : stressLoop M S d (now0 + maxD * 1000) T tr fuel S 0 now0 [] with
  | none => rw [hl] at h; exact absurd h (by simp)
  | some p =>
    obtain ⟨t', samples⟩ := p
    rw [hl] at h
    dsimp only at h
    injection h with h'
    injection h' with ht hres
    rw [ht] at hl
    obtain ⟨new, hnew, hmap, hle, hdrop, hterm⟩ :=
      stressLoop_spec M S d (now0 + maxD * 1000) T tr fuel S 0 now0 [] t samples hl
    rw [List.nil_append] at hnew
    subst hnew
    have hresults : res.results = samples := by rw [← hres]; rfl
    have hmap' : res.results.map (·.users) =
        (List.range res.results.length).map (fun (j : ℕ) => ((j : ℤ) + 1) * S) := by
      rw [hresults, hmap]
      apply List.map_congr_left
      intro j _
      ring
    have hle' : ∀ j, j < res.results.length → ((j : ℤ) + 1) * S ≤ M := by
      intro j hj
      have := hle j (by rwa [hresults] at hj)
      linarith
    refine ⟨hmap', hle', ?_, by rw [hresults]; exact hdrop, ?_, ?_⟩
    · by_cases hz : res.results.length = 0
      · rw [hz]; exact Nat.zero_le _
      · have h1 : ((res.results.length : ℤ)) * S ≤ M := by
          have := hle' (res.results.length - 1) (by omega)
          have hcast : ((res.results.length - 1 : ℕ) : ℤ) + 1 = (res.results.length : ℤ) := by
            have : 1 ≤ res.results.length := by omega
            push_cast [Nat.cast_sub this]
            ring
          rwa [hcast] at this
        have hSQ : (0 : ℚ) < (S : ℚ) := by exact_mod_cast (by omega : (0 : ℤ) < S)
        have h2 : ((res.results.length : ℚ)) ≤ (M : ℚ) / (S : ℚ) := by
          rw [le_div_iff₀ hSQ]
          exact_mod_cast h1
        have h3 : ((res.results.length : ℤ)) ≤ ⌈(M : ℚ) / (S : ℚ)⌉ := by
          have := Int.ceil_mono h2
          rwa [Int.ceil_natCast] at this
        have h0 : (0 : ℤ) ≤ ⌈(M : ℚ) / (S : ℚ)⌉ :=
          le_trans (Int.natCast_nonneg _) h3
        exact (Int.le_toNat h0).mpr h3
    · rcases hterm with ⟨hnil, ht', hcond⟩ | ⟨hne', hdisj⟩
      · exact Or.inl ⟨by rw [hresults]; exact hnil, ht', hcond⟩
      · refine Or.inr ⟨by rw [hresults]; exact hne', ?_⟩
        rcases hdisj with hlast | hM | he'
        · exact Or.inl (by rw [hresults]; exact hlast)
        · refine Or.inr (Or.inl ?_)
          rw [hresults]
          linarith
        · exact Or.inr (Or.inr he')
    · intro hM hS5 hall ht'
      subst hM
      subst hS5
      have hlen4 : res.results.length = 4 := by
        rcases hterm with ⟨hnil, hteq, hcond⟩ | ⟨hne', hdisj⟩
        · exfalso
          rcases hcond with hMlt | hele
          · omega
          · rw [← hteq] at hele; linarith
        · rcases hdisj with ⟨r, hlast, hrT⟩ | hM | he'
          · exfalso
            have hmem : r ∈ samples := List.mem_of_getLast?_eq_some hlast
            have := hall r (by rwa [hresults])
            rw [this] at hrT
            exact absurd hrT (by simp)
          · have hge : 4 ≤ samples.length := by omega
            have hle4 : samples.length ≤ 4 := by
              have := hle (samples.length - 1) (by omega)
              have hcast : ((samples.length - 1 : ℕ) : ℤ) = (samples.length : ℤ) - 1 := by
                push_cast [Nat.cast_sub (by omega : 1 ≤ samples.length)]
                ring
              rw [hcast] at this
              omega
            rw [hresults]
            omega
          · exfalso; linarith
      rw [hmap', hlen4]
      decide

/-- C4: every spike run (with at least one actor per phase) executes exactly
the three phases base, spike, recovery, strictly one after another — each
phase starts at the instant the previous phase's actors have all joined —
each with its own fresh per-phase metrics; the phases do not overlap:
phase[i].endTime (its deadline, start + duration) is at most
phase[i+1].startTime; and the result holds exactly the three labeled
samples in that order with the configured actor counts. -/
theorem C4_spike_three_sequential_phases (baseUsers spikeUsers : ℤ)
    (baseDuration spikeDuration recoveryDuration now0 : ℚ)
    (traces : ℕ → ℕ → List IterRec) (run : SpikeRun)
    (hb : 1 ≤ baseUsers) (hs : 1 ≤ spikeUsers)
    (h : spikeTest baseUsers spikeUsers baseDuration spikeDuration recoveryDuration now0 traces
        = some run) :
    run.result.results.map (·.phase) = ["Base Load", "Spike Load", "Recovery"] ∧
    run.result.results.map (·.users) = [baseUsers, spikeUsers, baseUsers] ∧
    run.base.startTime = now0 ∧
    run.base.deadline = now0 + baseDuration * 1000 ∧
    run.spike.startTime = run.base.joinTime ∧
    run.spike.deadline = run.spike.startTime + spikeDuration * 1000 ∧
    run.recovery.startTime = run.spike.joinTime ∧
    run.recovery.deadline = run.recovery.startTime + recoveryDuration * 1000 ∧
    run.base.deadline ≤ run.spike.startTime ∧
    run.spike.deadline ≤ run.recovery.startTime := by
  simp only [spikeTest] at h
  cases h1 : runPhase baseUsers baseDuration now0 (traces 0) with
  | none => rw [h1] at h; exact absurd h (by simp)
  | some p1 =>
    rw [h1] at h
    dsimp only at h
    cases h2 : runPhase spikeUsers spikeDuration p1.joinTime (traces 1) with
    | none => rw [h2] at h; exact absurd h (by simp)
    | some p2 =>
      rw [h2] at h
      dsimp only at h
      cases h3 : runPhase baseUsers recoveryDuration p2.joinTime (traces 2) with
      | none => rw [h3] at h; exact absurd h (by simp)
      | some p3 =>
        rw [h3] at h
        dsimp only at h
        injection h with h'
        subst h'
        obtain ⟨hs1, hd1, hu1, _, _, hj1⟩ := runPhase_spec _ _ _ _ _ h1
        obtain ⟨hs2, hd2, hu2, _, _, hj2⟩ := runPhase_spec _ _ _ _ _ h2
        obtain ⟨hs3, hd3, hu3, _, _, _⟩ := runPhase_spec _ _ _ _ _ h3
        refine ⟨by simp, by simp [hu1, hu2, hu3], hs1, by rw [hd1], hs2,
          by rw [hd2, hs2], hs3, by rw [hd3, hs3], ?_, ?_⟩
        · rw [hs2]
          exact hj1 hb
        · rw [hs3]
          exact hj2 hs

/-- C9: in every spike run in which each phase recorded at least one
successful invocation, every phase sample of the returned result reports
errorRate = 0 and an average response time computed over the successful
calls only, however many invocations failed: the failure increments land in
simulateUserPhase's by-value copy of runPhase's `phaseErrors`, which stays 0
in the error-rate computation. -/
theorem C9_spike_phase_error_rate_zero (baseUsers spikeUsers : ℤ)
    (baseDuration spikeDuration recoveryDuration now0 : ℚ)
    (traces : ℕ → ℕ → List IterRec) (run : SpikeRun)
    (h : spikeTest baseUsers spikeUsers baseDuration spikeDuration recoveryDuration now0 traces
        = some run)
    (hb : run.base.responseTimes ≠ []) (hsp : run.spike.responseTimes ≠ [])
    (hr : run.recovery.responseTimes ≠ []) :
    run.result.results.map (·.errorRate) = [some 0, some 0, some 0] ∧
    run.result.results.map (·.avgResponseTime) =
      [run.base.responseTimes.sum / (run.base.responseTimes.length : ℚ),
       run.spike.responseTimes.sum / (run.spike.responseTimes.length : ℚ),
       run.recovery.responseTimes.sum / (run.recovery.responseTimes.length : ℚ)] := by
  simp only [spikeTest] at h
  cases h1 : runPhase baseUsers baseDuration now0 (traces 0) with
  | none => rw [h1] at h; exact absurd h (by simp)
  | some p1 =>
    rw [h1] at h
    dsimp only at h
    cases h2 : runPhase spikeUsers spikeDuration p1.joinTime (traces 1) with
    | none => rw [h2] at h; exact absurd h (by simp)
    | some p2 =>
      rw [h2] at h
      dsimp only at h
      cases h3 : runPhase baseUsers recoveryDuration p2.joinTime (traces 2) with
      | none => rw [h3] at h; exact absurd h (by simp)
      | some p3 =>
        rw [h3] at h
        dsimp only at h
        injection h with h'
        subst h'
        obtain ⟨_, _, _, ha1, he1, _⟩ := runPhase_spec _ _ _ _ _ h1
        obtain ⟨_, _, _, ha2, he2, _⟩ := runPhase_spec _ _ _ _ _ h2
        obtain ⟨_, _, _, ha3, he3, _⟩ := runPhase_spec _ _ _ _ _ h3
        simp only at hb hsp hr
        have hl1 : p1.responseTimes.length ≠ 0 := fun hc => hb (List.length_eq_zero.mp hc)
        have hl2 : p2.responseTimes.length ≠ 0 := fun hc => hsp (List.length_eq_zero.mp hc)
        have hl3 : p3.responseTimes.length ≠ 0 := fun hc => hr (List.length_eq_zero.mp hc)
        constructor
        · simp [he1, he2, he3, hl1, hl2, hl3]
        · simp [ha1, ha2, ha3, Nat.pos_of_ne_zero hl1, Nat.pos_of_ne_zero hl2,
            Nat.pos_of_ne_zero hl3]

/-- C8 (counterexample): a load run invoked with duration 0 and 3 actors is
not rejected with a validation error — there is no validation anywhere in
the engine — it completes normally and returns the zero-filled result
(totalRequests = 0, errorRate = 0, throughput non-finite), exactly the
outcome the claim says is prevented. -/
theorem C8_counterexample_no_validation :
    loadTest 0 3 0 0 0 (fun _ => []) = some ⟨0, 0, 0, 0, 0, 0, 0, none, 0⟩ := by
  decide

/-- C8 (amended): the engine performs no input validation.  A load run with
a non-positive duration or actor count completes normally and returns a
zero-filled result (0 requests, 0 successes, 0 failures, error rate 0,
average latency 0); a stress run with a non-positive maximum duration
completes normally with an empty sample list and breakingPoint 0. -/
theorem C8_degenerate_inputs_zero_result :
    (∀ (duration : ℚ) (users : ℤ) (rampUpTime thinkTime now0 : ℚ)
        (traces : ℕ → List IterRec),
      duration ≤ 0 ∨ users ≤ 0 →
      ∃ r, loadTest duration users rampUpTime thinkTime now0 traces = some r ∧
        r.totalRequests = 0 ∧ r.successfulRequests = 0 ∧ r.failedRequests = 0 ∧
        r.errorRate = 0 ∧ r.avgResponseTime = 0) ∧
    (∀ (maxUsers stepSize : ℤ) (stepDuration maxDuration errorThreshold now0 : ℚ)
        (traces : ℕ → ℕ → List IterRec) (fuel : ℕ),
      maxDuration ≤ 0 → 1 ≤ fuel →
      ∃ t res,
        stressTest maxUsers stepSize stepDuration maxDuration errorThreshold now0 traces fuel
          = some (t, res) ∧ res.results = [] ∧ res.breakingPoint = 0) := by
  constructor
  · intro duration users rampUpTime thinkTime now0 traces hdeg
    have hspawn : spawnCount users
        (if 0 < rampUpTime ∧ users ≠ 0 then rampUpTime * 1000 / (users : ℚ) else 0)
        now0 (now0 + duration * 1000) = 0 := by
      unfold spawnCount
      rcases hdeg with hd | hu
      · apply List.countP_eq_zero.mpr
        intro i hi
        simp only [decide_eq_true_eq]
        have husers : 0 < users := by
          have := List.mem_range.mp hi
          omega
        have hramp : 0 ≤ (if 0 < rampUpTime ∧ users ≠ 0
            then rampUpTime * 1000 / (users : ℚ) else 0) := by
          split_ifs with hcond
          · apply div_nonneg
            · nlinarith [hcond.1]
            · exact_mod_cast le_of_lt husers
          · exact le_refl 0
        have hd1000 : duration * 1000 ≤ 0 := by nlinarith
        have hprod : 0 ≤ (i : ℚ) *
            (if 0 < rampUpTime ∧ users ≠ 0 then rampUpTime * 1000 / (users : ℚ) else 0) := by
          exact mul_nonneg (Nat.cast_nonneg i) hramp
        intro hlt
        linarith
      · have h0 : users.toNat = 0 := by omega
        rw [h0]
        simp
    refine ⟨generateLoadTestResult now0 (max now0 (now0 + duration * 1000)) [] 0, ?_, ?_⟩
    · simp only [loadTest, hspawn, joinActors]
    · simp [generateLoadTestResult]
  · intro maxUsers stepSize stepDuration maxDuration errorThreshold now0 traces fuel hd hf
    obtain ⟨f, rfl⟩ : ∃ f, fuel = f + 1 := ⟨fuel - 1, by omega⟩
    have hnolt : ¬(now0 < now0 + maxDuration * 1000) := by nlinarith
    refine ⟨now0, generateStressTestResult [], ?_, rfl, rfl⟩
    simp only [stressTest, stressLoop]
    rw [if_neg (by intro hc; exact hnolt hc.2)]

theorem generateEnduranceTestResult_reductions (data : List EnduranceSnapshot) (s e : ℚ)
    (hne : data ≠ []) :
    (generateEnduranceTestResult data s e).avgResponseTime =
      some ((data.map (·.avgResponseTime)).sum / (data.length : ℚ)) ∧
    (generateEnduranceTestResult data s e).maxResponseTime =
      some (listMax (data.map (·.avgResponseTime))) ∧
    (generateEnduranceTestResult data s e).avgErrorRate =
      ((data.map (·.errorRate)).foldl jsAdd (some 0)).map (· / (data.length : ℚ)) := by
  have hz : ¬(data.length = 0) := fun hc => hne (List.length_eq_zero.mp hc)
  simp [generateEnduranceTestResult, hz]

/-- C7: in every endurance run the periodic timer fires once per
monitoringInterval minutes and appends one snapshot of the shared metrics
(timestamped, with the configured actor count) to the ordered monitoring
sequence: the k-th snapshot is taken at now0 + (k+1)·interval, and a tick
fires exactly when it precedes the instant all actors have joined — the
timer is cancelled there; the final result reduces the snapshot sequence to
the mean of the snapshot average latencies, their maximum (peak), and the
mean of the snapshot error rates.  With monitoringInterval = 1 minute and
duration = 0.05 hours, a run with at least one actor whose join instant
does not overshoot the 180 s deadline by a full minute produces 2 or 3
snapshots. -/
theorem C7_endurance_monitoring :
    (∀ (users : ℤ) (durationHours monitoringInterval now0 : ℚ)
        (traces : ℕ → List IterRec) (run : EnduranceRun),
      enduranceTest users durationHours monitoringInterval now0 traces = some run →
      run.result.monitoringData =
        (List.range run.result.monitoringData.length).map (fun (k : ℕ) =>
          snapshotAt users run.deadline now0 traces
            (now0 + ((k : ℚ) + 1) * (monitoringInterval * 60 * 1000))) ∧
      (∀ k : ℕ, k < run.result.monitoringData.length ↔
          now0 + ((k : ℚ) + 1) * (monitoringInterval * 60 * 1000) < run.joinTime) ∧
      (run.result.monitoringData ≠ [] →
        run.result.avgResponseTime =
          some ((run.result.monitoringData.map (·.avgResponseTime)).sum /
            (run.result.monitoringData.length : ℚ)) ∧
        run.result.maxResponseTime =
          some (listMax (run.result.monitoringData.map (·.avgResponseTime))) ∧
        run.result.avgErrorRate =
          ((run.result.monitoringData.map (·.errorRate)).foldl jsAdd (some 0)).map
            (· / (run.result.monitoringData.length : ℚ)))) ∧
    (∀ (users : ℤ) (now0 : ℚ) (traces : ℕ → List IterRec) (run : EnduranceRun),
      1 ≤ users →
      enduranceTest users 0.05 1 now0 traces = some run →
      run.joinTime ≤ now0 + 240000 →
      2 ≤ run.result.monitoringData.length ∧ run.result.monitoringData.length ≤ 3) := by
  constructor
  · intro users dh mi now0 traces run h
    simp only [enduranceTest] at h
    by_cases hI : mi * 60 * 1000 ≤ 0
    · rw [if_pos hI] at h; exact absurd h (by simp)
    · rw [if_neg hI] at h
      have hIpos : (0 : ℚ) < mi * 60 * 1000 := lt_of_not_le hI
      cases hj : joinActors 1000 (now0 + dh * 60 * 60 * 1000) now0 (fun _ => now0) traces
          users.toNat with
      | none => rw [hj] at h; exact absurd h (by simp)
      | some p =>
        obtain ⟨j, lats, errs⟩ := p
        rw [hj] at h
        dsimp only at h
        injection h with h'
        subst h'
        refine ⟨?_, ?_, ?_⟩
        · simp [generateEnduranceTestResult]
        · intro k
          have hlen : (generateEnduranceTestResult
              ((List.range (nTicksFor (mi * 60 * 1000) (j - now0))).map fun (k : ℕ) =>
                snapshotAt users (now0 + dh * 60 * 60 * 1000) now0 traces
                  (now0 + ((k : ℚ) + 1) * (mi * 60 * 1000)))
              now0 j).monitoringData.length
              = nTicksFor (mi * 60 * 1000) (j - now0) := by
            simp [generateEnduranceTestResult]
          rw [hlen, lt_nTicksFor_iff _ _ hIpos k]
          constructor <;> intro hk <;> linarith
        · intro hne
          exact generateEnduranceTestResult_reductions _ now0 j hne
  · intro users now0 traces run hu h hjb
    simp only [enduranceTest] at h
    have hI : ¬((1 : ℚ) * 60 * 1000 ≤ 0) := by norm_num
    rw [if_neg hI] at h
    cases hj : joinActors 1000 (now0 + 0.05 * 60 * 60 * 1000) now0 (fun _ => now0) traces
        users.toNat with
    | none => rw [hj] at h; exact absurd h (by simp)
    | some p =>
      obtain ⟨j, lats, errs⟩ := p
      rw [hj] at h
      dsimp only at h
      injection h with h'
      subst h'
      have hpos : 0 < users.toNat := by omega
      have hdl : now0 + 0.05 * 60 * 60 * 1000 ≤ j :=
        joinActors_dl_le 1000 _ now0 (fun _ => now0) traces users.toNat hpos j lats errs hj
      have h180 : now0 + 180000 ≤ j := by
        have : (0.05 : ℚ) * 60 * 60 * 1000 = 180000 := by norm_num
        linarith [hdl, this.symm.le, this.le]
      have hjb2 : j ≤ now0 + 240000 := hjb
      have hI60 : (0 : ℚ) < 1 * 60 * 1000 := by norm_num
      have hlen : (generateEnduranceTestResult
          ((List.range (nTicksFor (1 * 60 * 1000) (j - now0))).map fun (k : ℕ) =>
            snapshotAt users (now0 + 0.05 * 60 * 60 * 1000) now0 traces
              (now0 + ((k : ℚ) + 1) * (1 * 60 * 1000)))
          now0 j).monitoringData.length
          = nTicksFor (1 * 60 * 1000) (j - now0) := by
        simp [generateEnduranceTestResult]
      constructor
      · show 2 ≤ (generateEnduranceTestResult _ now0 j).monitoringData.length
        rw [hlen]
        have h1 : (1 : ℕ) < nTicksFor (1 * 60 * 1000) (j - now0) := by
          rw [lt_nTicksFor_iff _ _ hI60]
          push_cast
          linarith
        omega
      · show (generateEnduranceTestResult _ now0 j).monitoringData.length ≤ 3
        rw [hlen]
        by_contra hc
        have h3 : (3 : ℕ) < nTicksFor (1 * 60 * 1000) (j - now0) := by omega
        rw [lt_nTicksFor_iff _ _ hI60] at h3
        push_cast at h3
        linarith

set_option maxRecDepth 10000 in
/-- C1 witness: a stress run whose second step fails every call; the
breaking point is that step's concurrency, 10. -/
theorem C1_breaking_point_classification_witness :
    (1 : ℤ) ≤ 5 ∧
    stressTest 10 5 1 100 50 0
        (fun step _ => if step = 0 then [⟨1000, true⟩] else [⟨1000, false⟩]) 10 =
      some (2000, ⟨10, [⟨5, 1000, some 0⟩, ⟨10, 0, some 100⟩]⟩) ∧
    ([⟨5, 1000, some 0⟩, ⟨10, 0, some 100⟩] : List StressSample) ≠ [] ∧
    (⟨10, [⟨5, 1000, some 0⟩, ⟨10, 0, some 100⟩]⟩ : StressTestResult').breakingPoint =
      ((([⟨5, 1000, some 0⟩, ⟨10, 0, some 100⟩] : List StressSample).find? fun r =>
          rateGe r.errorRate 5).map (·.users)).getD
        ((([⟨5, 1000, some 0⟩, ⟨10, 0, some 100⟩] : List StressSample).getLast?.map
          (·.users)).getD 0) := by
  refine ⟨by decide, by decide, by decide, ?_⟩
  exact C1_breaking_point_classification 10 5 1 100 50 0
    (fun step _ => if step = 0 then [⟨1000, true⟩] else [⟨1000, false⟩]) 10 2000
    ⟨10, [⟨5, 1000, some 0⟩, ⟨10, 0, some 100⟩]⟩ (by decide) (by decide) (by decide)

set_option maxRecDepth 10000 in
/-- C3 witness: a stress run with maxUsers 20, stepSize 5, no step crossing
the threshold and ample time; its sample concurrencies are [5,10,15,20]. -/
theorem C3_stress_escalation_witness :
    (1 : ℤ) ≤ 5 ∧
    stressTest 20 5 1 100 50 0 (fun _ _ => [⟨1000, true⟩]) 10 =
      some (4000, ⟨20, [⟨5, 1000, some 0⟩, ⟨10, 1000, some 0⟩, ⟨15, 1000, some 0⟩,
        ⟨20, 1000, some 0⟩]⟩) ∧
    (∀ r ∈ ([⟨5, 1000, some 0⟩, ⟨10, 1000, some 0⟩, ⟨15, 1000, some 0⟩,
        ⟨20, 1000, some 0⟩] : List StressSample), rateGe r.errorRate 50 = false) ∧
    (4000 : ℚ) < 0 + 100 * 1000 ∧
    ([⟨5, 1000, some 0⟩, ⟨10, 1000, some 0⟩, ⟨15, 1000, some 0⟩,
        ⟨20, 1000, some 0⟩] : List StressSample).map (·.users) = [5, 10, 15, 20] := by
  refine ⟨by decide, by decide, by decide, by decide, ?_⟩
  exact (C3_stress_escalation 20 5 1 100 50 0 (fun _ _ => [⟨1000, true⟩]) 10 4000
    ⟨20, [⟨5, 1000, some 0⟩, ⟨10, 1000, some 0⟩, ⟨15, 1000, some 0⟩, ⟨20, 1000, some 0⟩]⟩
    (by decide) (by decide)).2.2.2.2.2 rfl rfl (by decide) (by decide)

/-- C2 witness: one shared-metrics actor and one phase actor with a failing
and a succeeding invocation each; in both cases recorded successes +
failures equals the invocations made. -/
theorem C2_one_outcome_per_invocation_witness :
    simulateUser 0 1000 0 [⟨700, false⟩, ⟨800, true⟩] = some ⟨1500, [800], 1, 2⟩ ∧
    (1 : ℕ) + 1 = 2 ∧
    simulateUserPhase 1000 0 [⟨700, false⟩, ⟨800, true⟩] [5] 2 = some ⟨1500, [5, 800], 3, 2⟩ ∧
    (2 : ℕ) - 1 + (3 - 2) = 2 := by
  have h1 : simulateUser 0 1000 0 [⟨700, false⟩, ⟨800, true⟩] = some ⟨1500, [800], 1, 2⟩ := by
    decide
  have h2 : simulateUserPhase 1000 0 [⟨700, false⟩, ⟨800, true⟩] [5] 2 =
      some ⟨1500, [5, 800], 3, 2⟩ := by decide
  refine ⟨h1, ?_, h2, ?_⟩
  · exact (C2_one_outcome_per_invocation.1 0 1000 0 _ _ h1).2.2
  · exact (C2_one_outcome_per_invocation.2 1000 0 _ _ _ _ h2).2.2

/-- C6 witness: the actor of the C2 witness run, compared with its all-ok
variant: same exit instant 1500, same two calls; deadline 1000 ≤ exit. -/
theorem C6_failure_isolation_and_deadline_witness :
    simulateUser 0 1000 0 [⟨700, false⟩, ⟨800, true⟩] = some ⟨1500, [800], 1, 2⟩ ∧
    simulateUser 0 1000 0 [⟨700, true⟩, ⟨800, true⟩] = some ⟨1500, [700, 800], 0, 2⟩ ∧
    (1000 : ℚ) ≤ 1500 := by
  have h : simulateUser 0 1000 0 [⟨700, false⟩, ⟨800, true⟩] = some ⟨1500, [800], 1, 2⟩ := by
    decide
  have c := C6_failure_isolation_and_deadline 0 1000 0 _ _ h
  exact ⟨h, c.1, c.2.2.1⟩

/-- C5 witness: a load run with three actors, four invocations, one failure;
the result identities and min ≤ avg ≤ max hold at it. -/
theorem C5_load_result_invariants_witness :
    loadTest 2 3 0 0 0
        (fun i => if i = 2 then [⟨1000, false⟩, ⟨1000, true⟩] else [⟨2000, true⟩]) =
      some ⟨4, 3, 1, 5000 / 3, 1000, 2000, 25, some 2, 2⟩ ∧
    (4 : ℕ) = 3 + 1 ∧
    (25 : ℚ) = (((1 : ℕ) : ℚ) / (((1 : ℕ) : ℚ) + ((3 : ℕ) : ℚ))) * 100 ∧
    (some 2 : Option ℚ) = some (((4 : ℕ) : ℚ) / 2) ∧
    (1000 : ℚ) ≤ 5000 / 3 ∧ (5000 / 3 : ℚ) ≤ 2000 := by
  have h : loadTest 2 3 0 0 0
      (fun i => if i = 2 then [⟨1000, false⟩, ⟨1000, true⟩] else [⟨2000, true⟩]) =
      some ⟨4, 3, 1, 5000 / 3, 1000, 2000, 25, some 2, 2⟩ := by decide
  have c := C5_load_result_invariants 2 3 0 0 0 _ _ h
  refine ⟨h, c.1, c.2.1 (by decide), c.2.2.2.1 (by decide), ?_, ?_⟩
  · exact (c.2.2.2.2 (by decide)).1
  · exact (c.2.2.2.2 (by decide)).2

/-- C4 witness: a concrete spike run, one base actor and two spike actors,
one second per phase; the phases run back-to-back at 0–1000, 1000–2000,
2000–3000 ms with the three labeled samples in order. -/
theorem C4_spike_three_sequential_phases_witness :
    (1 : ℤ) ≤ 1 ∧ (1 : ℤ) ≤ 2 ∧
    spikeTest 1 2 1 1 1 0 (fun _ _ => [⟨1000, true⟩]) =
      some ⟨⟨0, 1000, 1000, [1000], ⟨1, 1000, some 0⟩⟩,
        ⟨1000, 2000, 2000, [1000, 1000], ⟨2, 1000, some 0⟩⟩,
        ⟨2000, 3000, 3000, [1000], ⟨1, 1000, some 0⟩⟩,
        ⟨[⟨"Base Load", 1, 1000, some 0⟩, ⟨"Spike Load", 2, 1000, some 0⟩,
          ⟨"Recovery", 1, 1000, some 0⟩]⟩⟩ ∧
    ([⟨"Base Load", 1, 1000, some 0⟩, ⟨"Spike Load", 2, 1000, some 0⟩,
        ⟨"Recovery", 1, 1000, some 0⟩] : List LabeledSample).map (·.phase) =
      ["Base Load", "Spike Load", "Recovery"] ∧
    (1000 : ℚ) ≤ 1000 ∧ (2000 : ℚ) ≤ 2000 := by
  have h : spikeTest 1 2 1 1 1 0 (fun _ _ => [⟨1000, true⟩]) =
      some ⟨⟨0, 1000, 1000, [1000], ⟨1, 1000, some 0⟩⟩,
        ⟨1000, 2000, 2000, [1000, 1000], ⟨2, 1000, some 0⟩⟩,
        ⟨2000, 3000, 3000, [1000], ⟨1, 1000, some 0⟩⟩,
        ⟨[⟨"Base Load", 1, 1000, some 0⟩, ⟨"Spike Load", 2, 1000, some 0⟩,
          ⟨"Recovery", 1, 1000, some 0⟩]⟩⟩ := by decide
  have c := C4_spike_three_sequential_phases 1 2 1 1 1 0 _ _ (by decide) (by decide) h
  exact ⟨by decide, by decide, h, c.1, c.2.2.2.2.2.2.2.2.1, c.2.2.2.2.2.2.2.2.2⟩

/-- C9 witness: a spike run whose every phase has one failing and one
succeeding invocation; every returned sample reports errorRate 0 and the
average over the single success. -/
theorem C9_spike_phase_error_rate_zero_witness :
    spikeTest 1 1 1 1 1 0 (fun _ _ => [⟨500, false⟩, ⟨600, true⟩]) =
      some ⟨⟨0, 1000, 1100, [600], ⟨1, 600, some 0⟩⟩,
        ⟨1100, 2100, 2200, [600], ⟨1, 600, some 0⟩⟩,
        ⟨2200, 3200, 3300, [600], ⟨1, 600, some 0⟩⟩,
        ⟨[⟨"Base Load", 1, 600, some 0⟩, ⟨"Spike Load", 1, 600, some 0⟩,
          ⟨"Recovery", 1, 600, some 0⟩]⟩⟩ ∧
    ([600] : List ℚ) ≠ [] ∧
    ([⟨"Base Load", 1, 600, some 0⟩, ⟨"Spike Load", 1, 600, some 0⟩,
        ⟨"Recovery", 1, 600, some 0⟩] : List LabeledSample).map (·.errorRate) =
      [some 0, some 0, some 0] := by
  have h : spikeTest 1 1 1 1 1 0 (fun _ _ => [⟨500, false⟩, ⟨600, true⟩]) =
      some ⟨⟨0, 1000, 1100, [600], ⟨1, 600, some 0⟩⟩,
        ⟨1100, 2100, 2200, [600], ⟨1, 600, some 0⟩⟩,
        ⟨2200, 3200, 3300, [600], ⟨1, 600, some 0⟩⟩,
        ⟨[⟨"Base Load", 1, 600, some 0⟩, ⟨"Spike Load", 1, 600, some 0⟩,
          ⟨"Recovery", 1, 600, some 0⟩]⟩⟩ := by decide
  have c := C9_spike_phase_error_rate_zero 1 1 1 1 1 0 _ _ h (by decide) (by decide) (by decide)
  exact ⟨h, by decide, c.1⟩

/-- C7 witness: one actor, three 59 s invocations with 1 s pacing, joining
exactly at the 180 s deadline; the 60 s timer fires twice (the tick at the
join instant loses to the cancellation), within the claimed 2–3. -/
theorem C7_endurance_monitoring_witness :
    (1 : ℤ) ≤ 1 ∧
    enduranceTest 1 0.05 1 0 (fun _ => [⟨59000, true⟩, ⟨59000, true⟩, ⟨59000, true⟩]) =
      some ⟨180000, 180000, ⟨[⟨60000, 59000, some 0, 1⟩, ⟨120000, 59000, some 0, 1⟩],
        some 59000, some 59000, some 0, 1 / 20⟩⟩ ∧
    (180000 : ℚ) ≤ 0 + 240000 ∧
    (2 ≤ 2 ∧ 2 ≤ 3) ∧
    ([⟨60000, 59000, some 0, 1⟩, ⟨120000, 59000, some 0, 1⟩] : List EnduranceSnapshot) =
      (List.range 2).map (fun (k : ℕ) =>
        snapshotAt 1 180000 0 (fun _ => [⟨59000, true⟩, ⟨59000, true⟩, ⟨59000, true⟩])
          (0 + ((k : ℚ) + 1) * (1 * 60 * 1000))) := by
  have h : enduranceTest 1 0.05 1 0
      (fun _ => [⟨59000, true⟩, ⟨59000, true⟩, ⟨59000, true⟩]) =
      some ⟨180000, 180000, ⟨[⟨60000, 59000, some 0, 1⟩, ⟨120000, 59000, some 0, 1⟩],
        some 59000, some 59000, some 0, 1 / 20⟩⟩ := by decide
  refine ⟨by decide, h, by norm_num, ?_, ?_⟩
  · exact C7_endurance_monitoring.2 1 0 _ _ (by decide) h (by norm_num)
  · exact (C7_endurance_monitoring.1 1 0.05 1 0 _ _ h).1

/-- C8 witness: a load run with negative duration and a stress run with zero
maximum duration both complete and return the degenerate results. -/
theorem C8_degenerate_inputs_zero_result_witness :
    ((-1 : ℚ) ≤ 0 ∨ (3 : ℤ) ≤ 0) ∧
    (∃ r, loadTest (-1) 3 0 0 0 (fun _ => []) = some r ∧ r.totalRequests = 0 ∧
      r.successfulRequests = 0 ∧ r.failedRequests = 0 ∧ r.errorRate = 0 ∧
      r.avgResponseTime = 0) ∧
    ((0 : ℚ) ≤ 0 ∧ (1 : ℕ) ≤ 1) ∧
    (∃ t res, stressTest 5 1 1 0 50 0 (fun _ _ => []) 1 = some (t, res) ∧
      res.results = [] ∧ res.breakingPoint = 0) := by
  refine ⟨Or.inl (by norm_num), ?_, ⟨le_refl 0, le_refl 1⟩, ?_⟩
  · exact C8_degenerate_inputs_zero_result.1 (-1) 3 0 0 0 (fun _ => [])
      (Or.inl (by norm_num))
  · exact C8_degenerate_inputs_zero_result.2 5 1 1 0 50 0 (fun _ _ => []) 1
      (le_refl 0) (le_refl 1)

/-- C10 witness: three events applied in two interleavings; counts agree and
the latency sequences are permutations; the 2-event prefix snapshot is
exact. -/
theorem C10_metrics_interleaving_safety_witness :
    ([RecordEvent.success 5, RecordEvent.failure, RecordEvent.success 7].Perm
      [RecordEvent.failure, RecordEvent.success 7, RecordEvent.success 5]) ∧
    (applyEvents ⟨[], 0⟩ ([RecordEvent.success 5, RecordEvent.failure,
        RecordEvent.success 7].take 2)).responseTimes.length = 0 + 1 ∧
    (applyEvents ⟨[], 0⟩ [RecordEvent.success 5, RecordEvent.failure,
        RecordEvent.success 7]).errors =
      (applyEvents ⟨[], 0⟩ [RecordEvent.failure, RecordEvent.success 7,
        RecordEvent.success 5]).errors ∧
    (applyEvents ⟨[], 0⟩ [RecordEvent.success 5, RecordEvent.failure,
        RecordEvent.success 7]).responseTimes.Perm
      (applyEvents ⟨[], 0⟩ [RecordEvent.failure, RecordEvent.success 7,
        RecordEvent.success 5]).responseTimes := by
  have hperm : ([RecordEvent.success 5, RecordEvent.failure, RecordEvent.success 7].Perm
      [RecordEvent.failure, RecordEvent.success 7, RecordEvent.success 5]) := by decide
  have c := C10_metrics_interleaving_safety ⟨[], 0⟩
    [RecordEvent.success 5, RecordEvent.failure, RecordEvent.success 7]
  exact ⟨hperm, (c.1 2).1, (c.2 _ hperm).1, (c.2 _ hperm).2⟩

end ClaimsAndWitnesses
